import Mathlib

/-!
Verification of the numeric core of mesh-graph-cut
(`Lib/mcut/include/mcut/internal/math.h`).

The exact-arithmetic scalar type `rational_number` (an arbitrary-precision
rational, `scalar_t` in the exact build) is modelled by `ℚ`.  The
floating-point inputs of `quantize`/`dequantize` are likewise modelled by
`ℚ`; every concrete value a theorem below evaluates these functions at is
exactly representable as a C++ `double`, and at those points the `double`
computation of the source and the rational computation of the model agree.
A fatal `MCUT_ASSERT` is modelled by returning `none`, so fallible
operations return `Option`.
-/

namespace MeshGraphCut

/-- Truncation of a rational toward zero: the semantics of the C++ cast
from `double` to `int` used in `rational_number::quantize`. -/
def ratTrunc (q : ℚ) : ℤ := if 0 ≤ q then ⌊q⌋ else ⌈q⌉

/-- Model of `rational_number::quantize(d, m)` (math.h lines 165-182).
Asserts `|d| <= m` and `m != 0` (modelled as `none` on violation);
returns `zero()` for `d == 0`; otherwise computes `n = d / m` and the
integer `i = int(n * (1 << 26))` (a truncating cast), returned as the
rational value of the resulting exact scalar. -/
def quantize (d m : ℚ) : Option ℚ :=
  if |d| ≤ m ∧ m ≠ 0 then
    if d = 0 then some 0
    else some ((ratTrunc (d / m * 2 ^ 26) : ℤ) : ℚ)
  else none

/-- Model of `rational_number::dequantize(i, m)` (math.h lines 184-204).
The parameter `getD` models the lossy `bigrational::get_d()` conversion
to `double`; at every point the theorems below evaluate it, the true
conversion is exact, so they instantiate `getD` with the identity. -/
def dequantize (getD : ℚ → ℚ) (i m : ℚ) : Option ℚ :=
  if i = 0 then some 0
  else if i ≤ 2 ^ 26 then
    let n := i / 2 ^ 26
    let d := n * m
    let r := getD d
    if r ≤ m then some r else none
  else none

lemma ratTrunc_zero : ratTrunc 0 = 0 := by
  simp [ratTrunc]

/-- Bounds on truncation toward zero: a rational within `[-B, B]`
truncates to an integer within `[-B, B]`. -/
lemma ratTrunc_abs_le {q : ℚ} {B : ℤ} (hB : 0 ≤ B)
    (h1 : -(B : ℚ) ≤ q) (h2 : q ≤ (B : ℚ)) :
    -B ≤ ratTrunc q ∧ ratTrunc q ≤ B := by
  unfold ratTrunc
  split_ifs with h
  · refine ⟨le_trans (by omega) (Int.floor_nonneg.mpr h), ?_⟩
    calc ⌊q⌋ ≤ ⌊(B : ℚ)⌋ := Int.floor_le_floor h2
      _ = B := Int.floor_intCast B
  · push_neg at h
    refine ⟨?_, ?_⟩
    · calc -B = ⌈((-B : ℤ) : ℚ)⌉ := (Int.ceil_intCast (-B)).symm
        _ ≤ ⌈q⌉ := Int.ceil_le_ceil (by push_cast; exact h1)
    · exact le_trans (Int.ceil_le.mpr (by exact_mod_cast h.le)) hB

/-- C1 (amended): for `|d| <= m` and `m != 0`, `quantize(d, m)` returns the
exact scalar whose value is the integer obtained by truncating
`d / m * 2^26` toward zero (the C++ `int` cast), and that integer lies in
the range `[-2^26, 2^26]`. -/
theorem quantize_truncates (d m : ℚ) (h1 : |d| ≤ m) (h2 : m ≠ 0) :
    quantize d m = some ((ratTrunc (d / m * 2 ^ 26) : ℤ) : ℚ) ∧
    -(2 ^ 26) ≤ ratTrunc (d / m * 2 ^ 26) ∧
    ratTrunc (d / m * 2 ^ 26) ≤ 2 ^ 26 := by
  have hm : 0 < m := lt_of_le_of_ne (le_trans (abs_nonneg d) h1) (Ne.symm h2)
  have hdm : |d / m| ≤ 1 := by
    rw [abs_div, abs_of_pos hm, div_le_one hm]
    exact h1
  have habs : |d / m * 2 ^ 26| ≤ 2 ^ 26 := by
    rw [abs_mul]
    calc |d / m| * |(2 : ℚ) ^ 26| ≤ 1 * |(2 : ℚ) ^ 26| := by
          have : (0 : ℚ) ≤ |(2 : ℚ) ^ 26| := abs_nonneg _
          exact mul_le_mul_of_nonneg_right hdm this
      _ = 2 ^ 26 := by norm_num
  obtain ⟨hl, hr⟩ := abs_le.mp habs
  have hb := ratTrunc_abs_le (q := d / m * 2 ^ 26) (B := 2 ^ 26) (by norm_num)
    (by push_cast at hl ⊢; linarith) (by push_cast at hr ⊢; linarith)
  refine ⟨?_, hb.1, hb.2⟩
  unfold quantize
  rw [if_pos ⟨h1, h2⟩]
  by_cases hd : d = 0
  · subst hd
    rw [if_pos rfl, zero_div, zero_mul, ratTrunc_zero]
    norm_num
  · rw [if_neg hd]

/-- Witness for C1 at `d = 1`, `m = 2`. -/
theorem quantize_truncates_witness :
    quantize 1 2 = some ((ratTrunc ((1 : ℚ) / 2 * 2 ^ 26) : ℤ) : ℚ) ∧
    -(2 ^ 26) ≤ ratTrunc ((1 : ℚ) / 2 * 2 ^ 26) ∧
    ratTrunc ((1 : ℚ) / 2 * 2 ^ 26) ≤ 2 ^ 26 :=
  quantize_truncates 1 2 (by norm_num) (by norm_num)

/-- C1 counterexample: at `d = 2`, `m = 3` (which satisfy the stated
preconditions), `quantize` does not return `round(d / m * 2^26)`: the code
truncates `44739242.66...` to `44739242`, while rounding gives `44739243`. -/
theorem quantize_round_counterexample :
    |(2 : ℚ)| ≤ 3 ∧ (3 : ℚ) ≠ 0 ∧
    quantize 2 3 ≠ some ((round ((2 : ℚ) / 3 * 2 ^ 26) : ℤ) : ℚ) := by
  refine ⟨by norm_num, by norm_num, ?_⟩
  have ht : ratTrunc ((2 : ℚ) / 3 * 2 ^ 26) = 44739242 := by
    unfold ratTrunc
    rw [if_pos (by norm_num), Int.floor_eq_iff]
    constructor <;> norm_num
  have hro : round ((2 : ℚ) / 3 * 2 ^ 26) = 44739243 := by
    rw [round_eq, Int.floor_eq_iff]
    constructor <;> norm_num
  have hq : quantize 2 3 = some ((44739242 : ℤ) : ℚ) := by
    unfold quantize
    rw [if_pos ⟨by norm_num, by norm_num⟩, if_neg (by norm_num), ht]
  rw [hq, hro]
  intro hcontra
  have h2 := Option.some.inj hcontra
  norm_num at h2

/-- C9 (amended): for every positive multiplier `m`, `quantize(0, m)`
returns exactly the exact-scalar zero. -/
theorem quantize_zero_exact : ∀ m : ℚ, 0 < m → quantize 0 m = some 0 := by
  intro m hm
  unfold quantize
  rw [if_pos ⟨by simpa using hm.le, hm.ne'⟩, if_pos rfl]

/-- Witness for C9 at `m = 1`. -/
theorem quantize_zero_exact_witness : quantize 0 1 = some 0 :=
  quantize_zero_exact 1 (by norm_num)

/-- C9 counterexample: the multiplier `-1` is nonzero, yet `quantize(0, -1)`
trips the fatal assertion `|d| <= m` (0 <= -1 fails) instead of returning
zero, so the claim fails for negative multipliers. -/
theorem quantize_zero_negative_counterexample :
    ((-1 : ℚ) ≠ 0) ∧ quantize 0 (-1) = none := by
  constructor
  · norm_num
  · unfold quantize
    rw [if_neg (by norm_num)]

/-- Model of `vec2_<scalar_t>` (math.h lines 226-331): an ordered pair of
exact scalars `m_x`, `m_y`. -/
structure Vec2 where
  x : ℚ
  y : ℚ
  deriving DecidableEq

/-- Model of `vec3_<scalar_t>` (math.h lines 336-419): a triple of exact
scalars.  In the source the class derives from `vec2_<T>` and adds `m_z`;
the base-class part is recovered by `Vec3.toVec2` below. -/
structure Vec3 where
  x : ℚ
  y : ℚ
  z : ℚ
  deriving DecidableEq

/-- Base-class slice of a `vec3_`: the inherited `vec2_<T>` subobject. -/
def Vec3.toVec2 (v : Vec3) : Vec2 := ⟨v.x, v.y⟩

/-- Model of `vec2_<T>::operator==` (math.h lines 261-264): compares the
`x` and `y` members only. -/
def vec2Eq (a b : Vec2) : Bool := decide (a.x = b.x ∧ a.y = b.y)

/-- Equality of two `vec3_` values through the member operator the class
inherits from `vec2_<T>`: the arguments are sliced to their base-class
parts, so the third component is ignored.  For `vec3` operands this
member is not what the expression `a == b` invokes (see `vec3Eq`); it is
reachable only through base-class references. -/
def vec3InheritedEq (a b : Vec3) : Bool := vec2Eq a.toVec2 b.toVec2

/-- Modelled from the spec: the free `bool operator==(const vec3&, const
vec3&)` declared at math.h line 600 is defined outside the available
sources.  The spec describes a 3D vector as an ordered tuple of 3 scalars
supporting equality, so the operator is modelled as componentwise
equality of all three components. -/
def vec3FreeEq (a b : Vec3) : Bool :=
  decide (a.x = b.x ∧ a.y = b.y ∧ a.z = b.z)

/-- The function the expression `a == b` invokes for two `vec3` operands:
overload resolution prefers the free `operator==(const vec3&, const
vec3&)` of math.h line 600 (an exact match on both arguments) over the
inherited member `vec2_<T>::operator==` (which requires a derived-to-base
conversion), so the free operator is called. -/
def vec3Eq (a b : Vec3) : Bool := vec3FreeEq a b

/-- Componentwise subtraction `vec3_::operator-` (math.h lines 388-391). -/
def Vec3.sub (a b : Vec3) : Vec3 := ⟨a.x - b.x, a.y - b.y, a.z - b.z⟩

/-- Componentwise division by a scalar, `vec3_::operator/` (math.h
lines 398-401). -/
def Vec3.divScalar (v : Vec3) (number : ℚ) : Vec3 :=
  ⟨v.x / number, v.y / number, v.z / number⟩

/-- The `vec3_(const T& value)` constructor (math.h lines 344-348): all
three components set to the same value. -/
def vec3Splat (value : ℚ) : Vec3 := ⟨value, value, value⟩

/-- Model of the exact-mode `orient2d(const scalar_t*, const scalar_t*,
const scalar_t*)` (math.h lines 961-969). -/
def orient2d (pa pb pc : Vec2) : ℚ :=
  (pa.x - pc.x) * (pb.y - pc.y) - (pa.y - pc.y) * (pb.x - pc.x)

/-- Model of the exact-mode `orient3d` (math.h lines 970-985). -/
def orient3d (pa pb pc pd : Vec3) : ℚ :=
  (pa.x - pd.x) * ((pb.y - pd.y) * (pc.z - pd.z) - (pb.z - pd.z) * (pc.y - pd.y)) +
  (pb.x - pd.x) * ((pc.y - pd.y) * (pa.z - pd.z) - (pc.z - pd.z) * (pa.y - pd.y)) +
  (pc.x - pd.x) * ((pa.y - pd.y) * (pb.z - pd.z) - (pa.z - pd.z) * (pb.y - pd.y))

/-- C3: the exact orientation predicates are antisymmetric: `orient2d`
negates under swapping its first two arguments, and `orient3d` negates
under swapping any two of its first three arguments. -/
theorem orient_predicates_antisymmetric :
    ∀ (a b c : Vec2) (p q r s : Vec3),
      orient2d b a c = -orient2d a b c ∧
      orient3d q p r s = -orient3d p q r s ∧
      orient3d r q p s = -orient3d p q r s ∧
      orient3d p r q s = -orient3d p q r s := by
  intro a b c p q r s
  refine ⟨?_, ?_, ?_, ?_⟩ <;> (simp only [orient2d, orient3d]; ring)

/-- C10 (amended): `vec3_` inherits `operator==` from `vec2_` without
overriding it, and that inherited member ignores the third component; but
for `vec3` operands the expression `a == b` resolves to the free
`operator==(const vec3&, const vec3&)` declared at math.h line 600, which
(modelled from the spec) compares all three components, so two 3D vectors
agreeing on `x` and `y` but differing on `z` compare unequal through
`a == b`, and equal only through the sliced inherited member. -/
theorem vec3_eq_overload (a b : Vec3) (hx : a.x = b.x) (hy : a.y = b.y)
    (hz : a.z ≠ b.z) :
    vec3Eq a b = false ∧ vec3InheritedEq a b = true := by
  constructor
  · simp [vec3Eq, vec3FreeEq, hx, hy, hz]
  · simp [vec3InheritedEq, vec2Eq, Vec3.toVec2, hx, hy]

/-- Witness for C10 at `(1,2,3)` and `(1,2,4)`. -/
theorem vec3_eq_overload_witness :
    vec3Eq ⟨1, 2, 3⟩ ⟨1, 2, 4⟩ = false ∧
    vec3InheritedEq ⟨1, 2, 3⟩ ⟨1, 2, 4⟩ = true :=
  vec3_eq_overload ⟨1, 2, 3⟩ ⟨1, 2, 4⟩ rfl rfl (by norm_num)

/-- C10 counterexample: the vectors `(1,2,3)` and `(1,2,4)` agree on `x`
and `y` and differ on `z`, yet `a == b` evaluates to false, not true: the
overload actually invoked compares all three components. -/
theorem vec3_eq_counterexample :
    (⟨1, 2, 3⟩ : Vec3).x = (⟨1, 2, 4⟩ : Vec3).x ∧
    (⟨1, 2, 3⟩ : Vec3).y = (⟨1, 2, 4⟩ : Vec3).y ∧
    (⟨1, 2, 3⟩ : Vec3).z ≠ (⟨1, 2, 4⟩ : Vec3).z ∧
    vec3Eq ⟨1, 2, 3⟩ ⟨1, 2, 4⟩ = false := by
  refine ⟨rfl, rfl, by norm_num, ?_⟩
  simp only [vec3Eq, vec3FreeEq]
  norm_num

/-- Model of the free template `min` (math.h lines 589-593):
`(b < a) ? b : a`. -/
def mcMin (a b : ℚ) : ℚ := if b < a then b else a

/-- Model of the free template `max` (math.h lines 594-598):
`(a < b) ? b : a`. -/
def mcMax (a b : ℚ) : ℚ := if a < b then b else a

/-- Model of `compwise_min` on `vec3_` (math.h lines 614-618). -/
def compwise_min (a b : Vec3) : Vec3 :=
  ⟨mcMin a.x b.x, mcMin a.y b.y, mcMin a.z b.z⟩

/-- Model of `compwise_max` on `vec3_` (math.h lines 620-624). -/
def compwise_max (a b : Vec3) : Vec3 :=
  ⟨mcMax a.x b.x, mcMax a.y b.y, mcMax a.z b.z⟩

/-- Model of `bounding_box_t<vec3>` (math.h lines 866-928). -/
structure bounding_box_t where
  m_minimum : Vec3
  m_maximum : Vec3
  deriving DecidableEq

/-- Value of `std::numeric_limits<double>::max()`: the largest finite
double, `(2 - 2^-52) * 2^1023 = 2^1024 - 2^971`. -/
def dblMax : ℚ := 2 ^ 1024 - 2 ^ 971

/-- Model of the default constructor `bounding_box_t()` (math.h lines
878-882): minimum splatted to `std::numeric_limits<double>::max()` and
maximum to its negation. -/
def default_bbox : bounding_box_t := ⟨vec3Splat dblMax, vec3Splat (-dblMax)⟩

/-- Model of `bounding_box_t::expand(const vector_type&)` (math.h lines
894-898). -/
def expand (bb : bounding_box_t) (point : Vec3) : bounding_box_t :=
  ⟨compwise_min bb.m_minimum point, compwise_max bb.m_maximum point⟩

/-- Model of `bounding_box_t::MaximumExtent()` (math.h lines 918-927). -/
def MaximumExtent (bb : bounding_box_t) : ℕ :=
  let diag := bb.m_maximum.sub bb.m_minimum
  if diag.x > diag.y ∧ diag.x > diag.z then 0
  else if diag.y > diag.z then 1
  else 2

/-- Extent of a bounding box along axis `i` (components of
`m_maximum - m_minimum`, indexed as `operator[]` does). -/
def extentAt (bb : bounding_box_t) (i : ℕ) : ℚ :=
  let diag := bb.m_maximum.sub bb.m_minimum
  if i = 0 then diag.x else if i = 1 then diag.y else diag.z

/-- Modelled from the claim wording of C4: the lowest axis index whose
extent is greatest (x beats y beats z on ties). -/
def maxExtentLowestIdxSpec (bb : bounding_box_t) : ℕ :=
  let diag := bb.m_maximum.sub bb.m_minimum
  if diag.x ≥ diag.y ∧ diag.x ≥ diag.z then 0
  else if diag.y ≥ diag.z then 1
  else 2

/-- Modelled from the amended wording of C4: the highest axis index whose
extent is greatest (z beats y beats x on ties). -/
def maxExtentHighestIdxSpec (bb : bounding_box_t) : ℕ :=
  let diag := bb.m_maximum.sub bb.m_minimum
  if diag.z ≥ diag.x ∧ diag.z ≥ diag.y then 2
  else if diag.y ≥ diag.x then 1
  else 0

/-- Model of `intersect_bounding_boxes` (math.h lines 931-941): closed
interval overlap on each of the three axes. -/
def intersect_bounding_boxes (a b : bounding_box_t) : Bool :=
  decide ((a.m_minimum.x ≤ b.m_maximum.x ∧ a.m_maximum.x ≥ b.m_minimum.x) ∧
          (a.m_minimum.y ≤ b.m_maximum.y ∧ a.m_maximum.y ≥ b.m_minimum.y) ∧
          (a.m_minimum.z ≤ b.m_maximum.z ∧ a.m_maximum.z ≥ b.m_minimum.z))

/-- Componentwise order on 3D vectors. -/
abbrev vle (a b : Vec3) : Prop := a.x ≤ b.x ∧ a.y ≤ b.y ∧ a.z ≤ b.z

lemma mcMin_le_left (a b : ℚ) : mcMin a b ≤ a := by
  unfold mcMin; split_ifs with h <;> linarith

lemma mcMax_left_le (a b : ℚ) : a ≤ mcMax a b := by
  unfold mcMax; split_ifs with h <;> linarith

lemma mcMin_eq_left {a b : ℚ} (h : a ≤ b) : mcMin a b = a := by
  unfold mcMin; split_ifs with hlt <;> linarith

lemma mcMax_eq_left {a b : ℚ} (h : b ≤ a) : mcMax a b = a := by
  unfold mcMax; split_ifs with hlt <;> linarith

/-- C4 (amended): `MaximumExtent()` returns an axis whose extent is
greatest, and when two or more axes tie for the greatest extent it
returns the higher axis index (z beats y beats x). -/
theorem MaximumExtent_greatest_highest_tie :
    ∀ bb : bounding_box_t,
      extentAt bb 0 ≤ extentAt bb (MaximumExtent bb) ∧
      extentAt bb 1 ≤ extentAt bb (MaximumExtent bb) ∧
      extentAt bb 2 ≤ extentAt bb (MaximumExtent bb) ∧
      MaximumExtent bb = maxExtentHighestIdxSpec bb := by
  intro bb
  rcases bb with ⟨⟨ax, ay, az⟩, ⟨bx, b2, bz⟩⟩
  have e0 : extentAt ⟨⟨ax, ay, az⟩, ⟨bx, b2, bz⟩⟩ 0 = bx - ax := rfl
  have e1 : extentAt ⟨⟨ax, ay, az⟩, ⟨bx, b2, bz⟩⟩ 1 = b2 - ay := rfl
  have e2 : extentAt ⟨⟨ax, ay, az⟩, ⟨bx, b2, bz⟩⟩ 2 = bz - az := rfl
  by_cases h1 : bx - ax > b2 - ay ∧ bx - ax > bz - az
  · have hM : MaximumExtent ⟨⟨ax, ay, az⟩, ⟨bx, b2, bz⟩⟩ = 0 := by
      simp only [MaximumExtent, Vec3.sub]
      rw [if_pos h1]
    have hS : maxExtentHighestIdxSpec ⟨⟨ax, ay, az⟩, ⟨bx, b2, bz⟩⟩ = 0 := by
      simp only [maxExtentHighestIdxSpec, Vec3.sub]
      rw [if_neg (by push_neg; intro hzx; linarith [h1.2]),
        if_neg (by push_neg; exact h1.1)]
    rw [hM, hS, e0, e1, e2]
    exact ⟨le_refl _, le_of_lt h1.1, le_of_lt h1.2, rfl⟩
  · have h1w := h1
    push_neg at h1w
    by_cases h2 : b2 - ay > bz - az
    · have hyx : bx - ax ≤ b2 - ay := by
        by_cases hxy : bx - ax > b2 - ay
        · have := h1w hxy
          linarith
        · push_neg at hxy
          exact hxy
      have hM : MaximumExtent ⟨⟨ax, ay, az⟩, ⟨bx, b2, bz⟩⟩ = 1 := by
        simp only [MaximumExtent, Vec3.sub]
        rw [if_neg h1, if_pos h2]
      have hS : maxExtentHighestIdxSpec ⟨⟨ax, ay, az⟩, ⟨bx, b2, bz⟩⟩ = 1 := by
        simp only [maxExtentHighestIdxSpec, Vec3.sub]
        rw [if_neg (by push_neg; intro hzx; linarith), if_pos hyx]
      rw [hM, hS, e0, e1, e2]
      exact ⟨hyx, le_refl _, le_of_lt h2, rfl⟩
    · push_neg at h2
      have hxz : bx - ax ≤ bz - az := by
        by_cases hxy : bx - ax > b2 - ay
        · exact h1w hxy
        · push_neg at hxy
          linarith
      have hM : MaximumExtent ⟨⟨ax, ay, az⟩, ⟨bx, b2, bz⟩⟩ = 2 := by
        simp only [MaximumExtent, Vec3.sub]
        rw [if_neg h1, if_neg (by push_neg; exact h2)]
      have hS : maxExtentHighestIdxSpec ⟨⟨ax, ay, az⟩, ⟨bx, b2, bz⟩⟩ = 2 := by
        simp only [maxExtentHighestIdxSpec, Vec3.sub]
        rw [if_pos ⟨hxz, h2⟩]
      rw [hM, hS, e0, e1, e2]
      exact ⟨hxz, h2, le_refl _, rfl⟩

/-- C4 counterexample: a box with extents `(5, 5, 3)` has axes 0 and 1
tied for the greatest extent, yet `MaximumExtent()` returns 1, not the
lower index 0 demanded by the claim. -/
theorem MaximumExtent_tie_counterexample :
    extentAt ⟨⟨0, 0, 0⟩, ⟨5, 5, 3⟩⟩ 0 = extentAt ⟨⟨0, 0, 0⟩, ⟨5, 5, 3⟩⟩ 1 ∧
    extentAt ⟨⟨0, 0, 0⟩, ⟨5, 5, 3⟩⟩ 2 < extentAt ⟨⟨0, 0, 0⟩, ⟨5, 5, 3⟩⟩ 0 ∧
    MaximumExtent ⟨⟨0, 0, 0⟩, ⟨5, 5, 3⟩⟩ = 1 ∧
    maxExtentLowestIdxSpec ⟨⟨0, 0, 0⟩, ⟨5, 5, 3⟩⟩ = 0 := by
  refine ⟨?_, ?_, ?_, ?_⟩ <;>
    norm_num [extentAt, MaximumExtent, maxExtentLowestIdxSpec, Vec3.sub]

/-- C5 (amended): a default-constructed bounding box has minimum splatted
to the largest finite double `dblMax` (not to infinity) and maximum to
`-dblMax` on every axis, so the first expand with any point whose
components lie within `[-dblMax, dblMax]` sets minimum == maximum == that
point. -/
theorem default_bbox_sentinel_expand :
    ∀ p : Vec3, |p.x| ≤ dblMax → |p.y| ≤ dblMax → |p.z| ≤ dblMax →
      default_bbox.m_minimum = vec3Splat dblMax ∧
      default_bbox.m_maximum = vec3Splat (-dblMax) ∧
      (expand default_bbox p).m_minimum = p ∧
      (expand default_bbox p).m_maximum = p := by
  intro p hx hy hz
  rcases p with ⟨px, py, pz⟩
  obtain ⟨hx1, hx2⟩ := abs_le.mp hx
  obtain ⟨hy1, hy2⟩ := abs_le.mp hy
  obtain ⟨hz1, hz2⟩ := abs_le.mp hz
  refine ⟨rfl, rfl, ?_, ?_⟩
  · show compwise_min (vec3Splat dblMax) ⟨px, py, pz⟩ = ⟨px, py, pz⟩
    simp only [compwise_min, vec3Splat, mcMin, Vec3.mk.injEq]
    refine ⟨?_, ?_, ?_⟩ <;> split_ifs <;> linarith
  · show compwise_max (vec3Splat (-dblMax)) ⟨px, py, pz⟩ = ⟨px, py, pz⟩
    simp only [compwise_max, vec3Splat, mcMax, Vec3.mk.injEq]
    refine ⟨?_, ?_, ?_⟩ <;> split_ifs <;> linarith

/-- Witness for C5 at the point `(1, -2, 3)`. -/
theorem default_bbox_sentinel_expand_witness :
    (expand default_bbox ⟨1, -2, 3⟩).m_minimum = ⟨1, -2, 3⟩ :=
  (default_bbox_sentinel_expand ⟨1, -2, 3⟩
    (by rw [abs_le]; norm_num [dblMax])
    (by rw [abs_le]; norm_num [dblMax])
    (by rw [abs_le]; norm_num [dblMax])).2.2.1

/-- C5 counterexample: the sentinel is the finite value `dblMax`, not
infinity; an exact-mode point whose x component exceeds `dblMax` (legal
for the arbitrary-precision scalar type) is not adopted as the new
minimum by the first expand, refuting the claim that the first expand
with any point sets minimum == that point. -/
theorem default_bbox_infinity_counterexample :
    dblMax < (2 : ℚ) ^ 1024 ∧
    (expand default_bbox ⟨2 ^ 1024, 0, 0⟩).m_minimum ≠ ⟨2 ^ 1024, 0, 0⟩ := by
  have hlt : dblMax < (2 : ℚ) ^ 1024 := by
    rw [dblMax]
    have : (0 : ℚ) < 2 ^ 971 := by positivity
    linarith
  refine ⟨hlt, ?_⟩
  simp only [expand, default_bbox, compwise_min, vec3Splat, Vec3.mk.injEq]
  intro hcontra
  rw [Vec3.mk.injEq] at hcontra
  have hxeq := hcontra.1
  unfold mcMin at hxeq
  rw [if_neg (by push_neg; exact hlt.le)] at hxeq
  exact absurd hxeq (ne_of_lt hlt)

/-- C6: bounding-box expansion is idempotent on interior points (a point
already within the bounds leaves minimum and maximum unchanged) and
monotone (expanding by any point never shrinks the box). -/
theorem expand_idempotent_monotone :
    ∀ (bb : bounding_box_t) (p : Vec3),
      vle bb.m_minimum bb.m_maximum → vle bb.m_minimum p → vle p bb.m_maximum →
      expand bb p = bb ∧
      ∀ q : Vec3, vle (expand bb q).m_minimum bb.m_minimum ∧
                  vle bb.m_maximum (expand bb q).m_maximum := by
  intro bb p _ h2 h3
  rcases bb with ⟨⟨ax, ay, az⟩, ⟨bx, b2, bz⟩⟩
  rcases p with ⟨px, py, pz⟩
  obtain ⟨h2x, h2y, h2z⟩ := h2
  obtain ⟨h3x, h3y, h3z⟩ := h3
  constructor
  · simp only [expand, compwise_min, compwise_max, bounding_box_t.mk.injEq,
      Vec3.mk.injEq]
    exact ⟨⟨mcMin_eq_left h2x, mcMin_eq_left h2y, mcMin_eq_left h2z⟩,
      ⟨mcMax_eq_left h3x, mcMax_eq_left h3y, mcMax_eq_left h3z⟩⟩
  · intro q
    rcases q with ⟨qx, qy, qz⟩
    exact ⟨⟨mcMin_le_left ax qx, mcMin_le_left ay qy, mcMin_le_left az qz⟩,
      ⟨mcMax_left_le bx qx, mcMax_left_le b2 qy, mcMax_left_le bz qz⟩⟩

/-- Witness for C6: the box `[0,2]^3` is unchanged by expanding with the
interior point `(1,1,1)`. -/
theorem expand_idempotent_monotone_witness :
    expand ⟨⟨0, 0, 0⟩, ⟨2, 2, 2⟩⟩ ⟨1, 1, 1⟩ = ⟨⟨0, 0, 0⟩, ⟨2, 2, 2⟩⟩ :=
  (expand_idempotent_monotone ⟨⟨0, 0, 0⟩, ⟨2, 2, 2⟩⟩ ⟨1, 1, 1⟩
    (by refine ⟨?_, ?_, ?_⟩ <;> norm_num)
    (by refine ⟨?_, ?_, ?_⟩ <;> norm_num)
    (by refine ⟨?_, ?_, ?_⟩ <;> norm_num)).1

/-- C7: bounding-box intersection is symmetric, with closed-interval
(inclusive-boundary) overlap per axis. -/
theorem intersect_bounding_boxes_symm :
    ∀ a b : bounding_box_t,
      intersect_bounding_boxes a b = intersect_bounding_boxes b a ∧
      (intersect_bounding_boxes a b = true ↔
        ((a.m_minimum.x ≤ b.m_maximum.x ∧ b.m_minimum.x ≤ a.m_maximum.x) ∧
         (a.m_minimum.y ≤ b.m_maximum.y ∧ b.m_minimum.y ≤ a.m_maximum.y) ∧
         (a.m_minimum.z ≤ b.m_maximum.z ∧ b.m_minimum.z ≤ a.m_maximum.z))) := by
  intro a b
  constructor
  · simp only [intersect_bounding_boxes, decide_eq_decide, ge_iff_le]
    constructor <;> (intro h; tauto)
  · simp only [intersect_bounding_boxes, decide_eq_true_eq, ge_iff_le]

/-- Model of `matrix_t<scalar_t>` (math.h lines 424-549): a dense
row-major grid with explicit row and column counts. -/
structure matrix_t where
  m_rows : ℕ
  m_cols : ℕ
  m_entries : List ℚ
  deriving DecidableEq

/-- Model of `matrix_t::operator()(row, col)` (math.h lines 439-447):
row-major indexed read `m_entries[row * m_cols + col]`.  An out-of-range
read is modelled by the default value 0 (the source does not check). -/
def matrix_t.entry (m : matrix_t) (row col : ℕ) : ℚ :=
  m.m_entries.getD (row * m.m_cols + col) 0

/-- Model of matrix multiplication `matrix_t::operator*` (math.h lines
450-463): the result is a zero-initialized `rows(a) x cols(b)` matrix
accumulated over `k < cols(a)`.  The source contains no `MCUT_ASSERT` on
the operand dimensions, so the model never returns `none`. -/
def matMul (a b : matrix_t) : Option matrix_t :=
  some { m_rows := a.m_rows, m_cols := b.m_cols,
         m_entries :=
           ((List.range a.m_rows).map fun i =>
             (List.range b.m_cols).map fun j =>
               (((List.range a.m_cols).map fun k =>
                 a.entry i k * b.entry k j).sum)).flatten }

/-- Model of matrix subtraction `matrix_t::operator-` (math.h lines
491-505): `MCUT_ASSERT(m.rows() == this->rows())` and
`MCUT_ASSERT(m.cols() == this->cols())` are modelled as `none` on
violation. -/
def matSub (a b : matrix_t) : Option matrix_t :=
  if b.m_rows = a.m_rows ∧ b.m_cols = a.m_cols then
    some { m_rows := a.m_rows, m_cols := a.m_cols,
           m_entries :=
             ((List.range a.m_rows).map fun i =>
               (List.range a.m_cols).map fun j =>
                 a.entry i j - b.entry i j).flatten }
  else none

/-- C8 (amended): matrix subtraction checks shape agreement with fatal
assertions, but matrix-times-matrix multiplication performs no dimension
check at all: it silently computes a `rows(a) x cols(b)` result for every
pair of operands, matching or not. -/
theorem matrix_dimension_checks :
    ∀ a b : matrix_t,
      (matMul a b).isSome = true ∧
      (¬(b.m_rows = a.m_rows ∧ b.m_cols = a.m_cols) → matSub a b = none) ∧
      ((b.m_rows = a.m_rows ∧ b.m_cols = a.m_cols) → (matSub a b).isSome = true) := by
  intro a b
  refine ⟨rfl, ?_, ?_⟩ <;> intro h <;> simp [matSub, h]

/-- Witness for C8: subtracting a 3x1 matrix from a 1x2 matrix trips the
shape assertion. -/
theorem matrix_dimension_checks_witness :
    matSub ⟨1, 2, [1, 2]⟩ ⟨3, 1, [1, 1, 1]⟩ = none :=
  (matrix_dimension_checks ⟨1, 2, [1, 2]⟩ ⟨3, 1, [1, 1, 1]⟩).2.1 (by norm_num)

/-- C8 counterexample: multiplying a 1x2 matrix by a 3x1 matrix has
mismatched inner dimensions (2 vs 3), yet no assertion fires: the code
silently computes the 1x1 result `[1*1 + 2*1] = [3]`. -/
theorem matMul_no_assert_counterexample :
    (⟨1, 2, [1, 2]⟩ : matrix_t).m_cols ≠ (⟨3, 1, [1, 1, 1]⟩ : matrix_t).m_rows ∧
    matMul ⟨1, 2, [1, 2]⟩ ⟨3, 1, [1, 1, 1]⟩ = some ⟨1, 1, [3]⟩ := by
  constructor
  · norm_num
  · show some _ = _
    norm_num [matrix_t.entry, List.range_succ]

/-- Model of `squared_length` = `dot_product(v, v)` on a 3D vector
(math.h lines 634-642 and 677-681). -/
def squared_length (v : Vec3) : ℚ := v.x * v.x + v.y * v.y + v.z * v.z

/-- Model of the exact-mode `square_root<T>(number, multiplier)` (math.h
lines 551-565): dequantize with the multiplier, take the floating-point
square root, re-quantize with the same multiplier.  The parameter `fsqrt`
models the external `std::sqrt` on doubles and `getD` models
`bigrational::get_d()`. -/
def square_root (fsqrt getD : ℚ → ℚ) (number multiplier : ℚ) : Option ℚ :=
  (dequantize getD number multiplier).bind fun dq =>
    quantize (fsqrt dq) multiplier

/-- Model of the exact-mode specialization `length(const vec3_<scalar_t>&,
double)` (math.h lines 690-695): it returns
`std::sqrt(squared_length(v).get_d())` directly, without calling
`square_root` and without using the multiplier (the `square_root` call is
commented out in the source). -/
def length (fsqrt getD : ℚ → ℚ) (v : Vec3) (multiplier : ℚ) : ℚ :=
  fsqrt (getD (squared_length v))

/-- Model of `normalize(v, multiplier)` (math.h lines 717-721):
`v / length(v, multiplier)`. -/
def normalize (fsqrt getD : ℚ → ℚ) (v : Vec3) (multiplier : ℚ) : Vec3 :=
  v.divScalar (length fsqrt getD v multiplier)

/-- Exact square root on perfect squares: a model of the external
`std::sqrt` that agrees with the IEEE result at every input where the
counterexample below evaluates it (arguments and results are integer
powers of two, on which IEEE sqrt is exact). -/
def ratSqrt (q : ℚ) : ℚ := (Nat.sqrt q.num.toNat : ℚ) / (Nat.sqrt q.den : ℚ)

/-- C2 (amended): in exact mode `square_root(x, multiplier)` dequantizes
`x` with the multiplier, applies the floating-point square root and
re-quantizes with the same multiplier, but `length` does NOT route
through it: it applies the square root directly to `squared_length(v)`
converted to double, independently of the multiplier, and `normalize`
divides by that length. -/
theorem length_bypasses_square_root :
    ∀ (fsqrt getD : ℚ → ℚ) (x : ℚ) (v : Vec3) (m1 m2 : ℚ),
      square_root fsqrt getD x m1 =
        (dequantize getD x m1).bind (fun dq => quantize (fsqrt dq) m1) ∧
      length fsqrt getD v m1 = fsqrt (getD (squared_length v)) ∧
      length fsqrt getD v m1 = length fsqrt getD v m2 ∧
      normalize fsqrt getD v m1 = v.divScalar (length fsqrt getD v m1) := by
  intro fsqrt getD x v m1 m2
  exact ⟨rfl, rfl, rfl, rfl⟩

/-- C2 counterexample: for the exact vector `(8192, 0, 0)` and multiplier
1, `length` returns `sqrt(2^26) = 8192`, while routing through
`square_root` (as the claim asserts) would dequantize `2^26` to 1, take
`sqrt(1) = 1`, and re-quantize to `2^26 = 67108864`: the two routes
disagree, so `length` does not compute its square root via
`square_root`. -/
theorem length_square_root_differ :
    length ratSqrt id ⟨8192, 0, 0⟩ 1 = 8192 ∧
    square_root ratSqrt id (squared_length ⟨8192, 0, 0⟩) 1 = some 67108864 ∧
    some (length ratSqrt id ⟨8192, 0, 0⟩ 1) ≠
      square_root ratSqrt id (squared_length ⟨8192, 0, 0⟩) 1 := by
  have hsq : squared_length ⟨8192, 0, 0⟩ = (67108864 : ℚ) := by
    norm_num [squared_length]
  have hrs1 : ratSqrt 1 = 1 := by
    norm_num [ratSqrt]
  have hrs : ratSqrt 67108864 = 8192 := by
    unfold ratSqrt
    rw [show ((67108864 : ℚ).num).toNat = 67108864 from rfl,
      show ((67108864 : ℚ).den) = 1 from rfl,
      show (67108864 : ℕ) = 8192 * 8192 by norm_num, Nat.sqrt_eq 8192,
      Nat.sqrt_one]
    norm_num
  have hlen : length ratSqrt id ⟨8192, 0, 0⟩ 1 = 8192 := by
    unfold length
    rw [hsq]
    simpa using hrs
  have hdeq : dequantize id (67108864 : ℚ) 1 = some 1 := by
    unfold dequantize
    rw [if_neg (by norm_num), if_pos (by norm_num)]
    norm_num
  have hquant : quantize 1 1 = some (67108864 : ℚ) := by
    unfold quantize
    rw [if_pos ⟨by norm_num, by norm_num⟩, if_neg (by norm_num)]
    unfold ratTrunc
    rw [if_pos (by norm_num), show ((1 : ℚ) / 1 * 2 ^ 26) = ((67108864 : ℤ) : ℚ) by norm_num,
      Int.floor_intCast]
    norm_num
  have hroute : square_root ratSqrt id (squared_length ⟨8192, 0, 0⟩) 1 =
      some (67108864 : ℚ) := by
    unfold square_root
    rw [hsq, hdeq]
    show quantize (ratSqrt 1) 1 = _
    rw [hrs1, hquant]
  refine ⟨hlen, hroute, ?_⟩
  rw [hlen, hroute]
  intro hcontra
  have h2 := Option.some.inj hcontra
  norm_num at h2

end MeshGraphCut
